import Mathlib

/-!
Verification development for the `wagtail-meilisearch` repository: a shallow
embedding of the index-synchronisation and query-ranking layer
(`utils.py`, `results.py`, `index.py`, `rebuilder.py`, `backend.py` under
`src/wagtail_meilisearch/`),
together with theorems settling the frozen behavioural claims about it.

Conventions of the embedding:
* Python dictionaries that are used as ordered key/value stores (`dict`,
  `OrderedDict`) are association lists `List (String × β)` with first-match
  lookup (`alookup`) and overwrite-or-append assignment (`odSet`/`odUpdate`),
  matching CPython's insertion-ordered dictionary semantics.
* Numeric scores (Meilisearch ranking scores, boost weights) are rationals;
  none of the verified properties depends on floating-point rounding.
* `sorted(xs, key=k, reverse=True)` — Python's stable descending sort — is
  embedded as `sortDescBy`, an insertion sort that is stable and sorted for
  the descending-by-key relation; stability plus sortedness determines the
  output uniquely, so this agrees with CPython's sort.
* Remote Meilisearch operations are not performed; instead each embedded
  operation returns the ordered list of engine calls it would issue
  (`EngineCall`), which is exactly what the claims quantify over.
-/

namespace WagtailMeili

/-- Descending-by-key ordering used to model Python's
`sorted(..., key=..., reverse=True)`. -/
def descBy {α : Type} (key : α → ℚ) (a b : α) : Prop :=
  key b ≤ key a

instance {α : Type} (key : α → ℚ) : DecidableRel (descBy key) :=
  fun a b => inferInstanceAs (Decidable (key b ≤ key a))

instance {α : Type} (key : α → ℚ) : IsTotal α (descBy key) :=
  ⟨fun a b => le_total (key b) (key a)⟩

instance {α : Type} (key : α → ℚ) : IsTrans α (descBy key) :=
  ⟨fun _ _ _ h1 h2 => le_trans h2 h1⟩

/-- Stable descending sort by `key`: the embedding of
`sorted(xs, key=..., reverse=True)`. -/
def sortDescBy {α : Type} (key : α → ℚ) (l : List α) : List α :=
  List.insertionSort (descBy key) l

theorem sortDescBy_perm {α : Type} (key : α → ℚ) (l : List α) :
    List.Perm (sortDescBy key l) l :=
  List.perm_insertionSort (descBy key) l

theorem sortDescBy_sorted {α : Type} (key : α → ℚ) (l : List α) :
    List.Sorted (descBy key) (sortDescBy key l) :=
  List.sorted_insertionSort (descBy key) l

/-- First-match association-list lookup: the embedding of Python
`d[k]` / `d.get(k)` on a dict represented as an ordered list of pairs. -/
def alookup {β : Type} : List (String × β) → String → Option β
  | [], _ => none
  | p :: rest, k => if p.1 = k then some p.2 else alookup rest k

/-! ## Hits and multi-search results (`utils.py`, `results.py`)

A Meilisearch hit is a JSON object; the embedded `Hit` keeps the three
members the ranking code reads: the optional `id` key, the optional
`_rankingScore` key, and the `_matchesPosition` object.  Since the scoring
code only ever takes `len(str(matches))` of a field's match-position data,
the embedding records that serialized length directly, per field name. -/

structure Hit where
  id : Option Int
  rankingScore : Option ℚ
  matchesPosition : List (String × Nat)
deriving DecidableEq

/-- One entry of the `results` array of a multi-search response; the `hits`
key may be absent. -/
structure IndexResult where
  hits : Option (List Hit)
deriving DecidableEq

/-- A search-results dictionary as consumed by
`ranked_ids_from_search_results`: it may carry a top-level `hits` key
(single-index response) or a `results` key (multi-search response). -/
structure SearchResults where
  hits : Option (List Hit)
  results : Option (List IndexResult)
deriving DecidableEq

/-- `(hit["id"], hit.get("_rankingScore", 0.0)) for hit in hits if "id" in hit`
(`utils.py` lines 156–158 / 165–169). -/
def hitPairs (hits : List Hit) : List (Int × ℚ) :=
  hits.filterMap fun h => h.id.map fun i => (i, h.rankingScore.getD 0)

/-- The flat `items` list accumulated over all index results that carry a
`hits` key (`utils.py` lines 162–169). -/
def multiItems (r : SearchResults) : List (Int × ℚ) :=
  (((r.results.getD []).filterMap IndexResult.hits).map hitPairs).flatten

/-- Embedding of `utils.ranked_ids_from_search_results` (`utils.py`
lines 137–172): single-index responses return their pairs unsorted (early
`return`); multi-search responses return all pairs sorted descending by
ranking score, where a missing `_rankingScore` defaults to `0.0`. -/
def ranked_ids_from_search_results (r : SearchResults) : List (Int × ℚ) :=
  match r.hits with
  | some hs => hitPairs hs
  | none => sortDescBy (fun p => p.2) (multiItems r)

/-- `boosts.get(key, 1) or 1` — dictionary lookup defaulting to `1`, with a
falsy stored boost (only `0` for numbers) also coerced to `1` (legacy
`results.py` line 97). -/
def boostOr1 (boosts : List (String × ℚ)) (key : String) : ℚ :=
  match alookup boosts key with
  | none => 1
  | some b => if b = 0 then 1 else b

/-- The boost-weighted fallback score of the legacy revision's
`_do_search` (legacy `results.py` lines 94–100):
`sum(len(str(matches)) * (boosts.get(key, 1) or 1) for key, matches in
hit["_matchesPosition"].items())`, with `len(str(matches))` recorded in the
hit as the serialized length. -/
def legacyMatchScore (boosts : List (String × ℚ)) (h : Hit) : ℚ :=
  (h.matchesPosition.map fun p => (p.2 : ℚ) * boostOr1 boosts p.1).sum

/-- The per-hit score asserted by the spec's scoring sentence: the native
ranking score when present, otherwise the boost-weighted fallback. -/
def specClaimScore (boosts : List (String × ℚ)) (h : Hit) : ℚ :=
  match h.rankingScore with
  | some s => s
  | none => legacyMatchScore boosts h

/-- A hit with no `_rankingScore` but with match-position data of serialized
length 40 on a field boosted by 10. -/
def c1Hit : Hit := ⟨some 5, none, [("title", 40)]⟩

/-- A multi-search response containing only `c1Hit`. -/
def c1Results : SearchResults := ⟨none, some [⟨some [c1Hit]⟩]⟩

/-- Boost map assigning boost 10 to the matched field of `c1Hit`. -/
def c1Boosts : List (String × ℚ) := [("title", 10)]

/-! ## Ordered-dictionary assignment (`dict.update` / `OrderedDict.update`)

CPython semantics: assigning to an existing key keeps its position and
replaces its value; assigning a new key appends it. `update` performs the
assignments in the iteration order of its argument. -/

/-- `d[k] = v` on an insertion-ordered dictionary. -/
def odSet {β : Type} (d : List (String × β)) (k : String) (v : β) :
    List (String × β) :=
  if d.any (fun p => p.1 = k) then
    d.map fun p => if p.1 = k then (k, v) else p
  else d ++ [(k, v)]

/-- `d.update(res)`: assign every pair of `res`, in order, into `d`. -/
def odUpdate {β : Type} (d res : List (String × β)) : List (String × β) :=
  res.foldl (fun acc kv => odSet acc kv.1 kv.2) d

/-- The value of the LAST binding of key `k` in a pair list — the value `k`
ends up with after all pairs are assigned in order (last write wins). -/
def lastVal {β : Type} : List (String × β) → String → Option β
  | [], _ => none
  | p :: rest, k =>
    match lastVal rest k with
    | some v => some v
    | none => if p.1 = k then some p.2 else none

theorem alookup_map_ne {β : Type} (d : List (String × β)) (k k' : String)
    (v : β) (hkk : k ≠ k') :
    alookup (d.map fun p => if p.1 = k then (k, v) else p) k' = alookup d k' :=
  by
  induction d with
  | nil => rfl
  | cons p rest ih =>
    by_cases hp : p.1 = k
    · simp [alookup, hp, hkk, ih]
    · simp [alookup, hp, ih]

theorem alookup_map_replaced {β : Type} (d : List (String × β)) (k : String)
    (v : β) (hmem : d.any (fun p => p.1 = k) = true) :
    alookup (d.map fun p => if p.1 = k then (k, v) else p) k = some v :=
  by
  induction d with
  | nil => simp at hmem
  | cons p rest ih =>
    by_cases hp : p.1 = k
    · simp [alookup, hp]
    · simp only [List.any_cons, Bool.or_eq_true, decide_eq_true_eq] at hmem
      rcases hmem with hmem | hmem
      · exact absurd hmem hp
      · simp [alookup, hp, ih hmem]

theorem alookup_append_single {β : Type} (d : List (String × β))
    (k k' : String) (v : β) (hmem : d.any (fun p => p.1 = k) = false) :
    alookup (d ++ [(k, v)]) k' = if k = k' then some v else alookup d k' :=
  by
  induction d with
  | nil => by_cases hk : k = k' <;> simp [alookup, hk]
  | cons p rest ih =>
    simp only [List.any_cons, Bool.or_eq_false_iff, decide_eq_false_iff_not]
      at hmem
    by_cases hp : p.1 = k'
    · have hkk : ¬k = k' := fun h => hmem.1 (by rw [hp, h])
      simp [alookup, hp, hkk]
    · simp [alookup, hp, ih hmem.2]

theorem alookup_odSet {β : Type} (d : List (String × β)) (k k' : String)
    (v : β) :
    alookup (odSet d k v) k' = if k = k' then some v else alookup d k' :=
  by
  unfold odSet
  by_cases hmem : d.any (fun p => p.1 = k)
  · simp only [hmem, if_true]
    by_cases hk : k = k'
    · subst hk
      simp [alookup_map_replaced d k v hmem]
    · simp [alookup_map_ne d k k' v hk, hk]
  · simp only [Bool.not_eq_true] at hmem
    simp only [hmem, Bool.false_eq_true, if_false]
    exact alookup_append_single d k k' v hmem

theorem alookup_odUpdate {β : Type} (res : List (String × β)) :
    ∀ (d : List (String × β)) (k : String),
      alookup (odUpdate d res) k =
        match lastVal res k with
        | some v => some v
        | none => alookup d k :=
  by
  induction res with
  | nil => intro d k; rfl
  | cons p rest ih =>
    intro d k
    have hstep : odUpdate d (p :: rest) = odUpdate (odSet d p.1 p.2) rest :=
      rfl
    rw [hstep, ih (odSet d p.1 p.2) k, alookup_odSet]
    cases hlv : lastVal rest k with
    | some v => simp [lastVal, hlv]
    | none =>
      by_cases hp : p.1 = k
      · simp [lastVal, hlv, hp]
      · simp [lastVal, hlv, hp]

theorem odUpdate_append {β : Type} (d r1 r2 : List (String × β)) :
    odUpdate d (r1 ++ r2) = odUpdate (odUpdate d r1) r2 :=
  List.foldl_append _ _ r1 r2

/-! ## Facet merging (`results.py` lines 26–79)

`facet(field_name)` walks every descendant model; for each one whose index
lists `f"{field_name}_filter"` among its filterable attributes it issues a
facet search, reads `result["facetDistribution"][filter_field]` (a
`KeyError` is passed over), and folds the distribution into an accumulator
with `results.update(res)`; finally the accumulator is sorted descending by
count.  The per-index remote interaction is abstracted into a `FacetIndex`
record carrying the filterable-attribute list and the (possibly absent)
distribution the engine returns for the requested filter field. -/

structure FacetIndex where
  filterableFields : List String
  facetDistribution : Option (List (String × Nat))
deriving DecidableEq

/-- One iteration of the `for m in models` loop of `facet`. -/
def facetStep (filterField : String) (acc : List (String × Nat))
    (idx : FacetIndex) : List (String × Nat) :=
  if filterField ∈ idx.filterableFields then
    match idx.facetDistribution with
    | none => acc
    | some res => odUpdate acc res
  else acc

/-- The accumulator `results` after the model loop of `facet`. -/
def facetMerge (indexes : List FacetIndex) (filterField : String) :
    List (String × Nat) :=
  indexes.foldl (facetStep filterField) []

/-- Embedding of `MeiliSearchResults.facet` (`results.py` lines 26–79):
merge each contributing index's facet distribution into an ordered
dictionary via `update`, then sort descending by count. -/
def facet (indexes : List FacetIndex) (filterField : String) :
    List (String × Nat) :=
  sortDescBy (fun p => (p.2 : ℚ)) (facetMerge indexes filterField)

/-- The distributions actually folded in, in model order: those of indexes
that list the filter field as filterable and whose response carries a
distribution for it. -/
def contribDists (indexes : List FacetIndex) (filterField : String) :
    List (List (String × Nat)) :=
  indexes.filterMap fun idx =>
    if filterField ∈ idx.filterableFields then idx.facetDistribution
    else none

theorem facetMerge_eq_odUpdate (indexes : List FacetIndex)
    (filterField : String) :
    facetMerge indexes filterField =
      odUpdate [] (contribDists indexes filterField).flatten :=
  by
  suffices h : ∀ d, indexes.foldl (facetStep filterField) d =
      odUpdate d (contribDists indexes filterField).flatten from h []
  induction indexes with
  | nil => intro d; rfl
  | cons idx rest ih =>
    intro d
    simp only [List.foldl_cons, contribDists, List.filterMap_cons]
    by_cases hf : filterField ∈ idx.filterableFields
    · cases hdist : idx.facetDistribution with
      | none =>
        simp only [hf, if_pos, hdist]
        have : facetStep filterField d idx = d := by
          simp [facetStep, hf, hdist]
        rw [this]
        exact ih d
      | some res =>
        simp only [hf, if_pos, hdist, List.flatten_cons]
        have : facetStep filterField d idx = odUpdate d res := by
          simp [facetStep, hf, hdist]
        rw [this, odUpdate_append]
        exact ih (odUpdate d res)
    · simp only [hf, if_neg, if_false]
      have : facetStep filterField d idx = d := by
        simp [facetStep, hf]
      rw [this]
      exact ih d

/-- The two facet distributions of the claim's concrete example. -/
def c2Indexes : List FacetIndex :=
  [⟨["content_type_id_filter"], some [("58", 100)]⟩,
   ⟨["content_type_id_filter"], some [("58", 97), ("75", 2)]⟩]

/-! ## Windowing (`results.py` lines 208–263)

`_do_search` ranks the entire merged hit set (`ranked_ids_from_search_results`
on the multi-search response), projects the sorted IDs, and only then applies
the caller's `[start:stop]` window before hitting the relational store. -/

/-- Python list slicing `l[a:b]` for non-negative bounds. -/
def pySlice {α : Type} (l : List α) (a b : Nat) : List α :=
  (l.drop a).take (b - a)

/-- The globally sorted ID list `sorted_ids` of `_do_search` (`results.py`
lines 235–237), computed over the entire merged hit set of the multi-search
response. -/
def globalSortedIds (irs : List IndexResult) : List Int :=
  (ranked_ids_from_search_results ⟨none, some irs⟩).map Prod.fst

/-- The windowed ID list `window_sorted_ids = sorted_ids[self.start:self.stop]`
of `_do_search` (`results.py` line 241). -/
def do_search_window (irs : List IndexResult) (start stop : Nat) : List Int :=
  pySlice (globalSortedIds irs) start stop

/-! ## Records and delta filtering (`index.py` lines 364–405)

A temporal attribute of a record, as seen by `_check_deltas`:
* `missing` — `hasattr(obj, field)` is false;
* `nullOrFalsy` — the attribute exists but is falsy (`if val` fails);
* `incomparable` — comparing the value with the cutoff raises `TypeError`;
* `time t` — a datetime, embedded as an integer timeline point.

The cutoff `since = arrow.now().shift(**self.update_delta).datetime` is a
single timeline point, passed in as `since : Int`.  `update_delta` is
`Option Unit`: `none` embeds a falsy `self.update_delta` (the
`if not self.update_delta: return filtered` guard). -/

inductive DeltaVal where
  | missing
  | nullOrFalsy
  | incomparable
  | time (t : Int)
deriving DecidableEq

/-- A model record, carrying what the indexing layer reads from it: its
concrete class name, primary key, the field dictionary that the search-field
walk (`utils.get_document_fields`) would extract from its CURRENT state, and
its four recognised temporal attributes. -/
structure Record where
  cls : String
  id : Int
  docFields : List (String × String)
  created_at : DeltaVal
  updated_at : DeltaVal
  first_published_at : DeltaVal
  last_published_at : DeltaVal
deriving DecidableEq

/-- The fixed temporal-field list `self.delta_fields` (`index.py`
lines 155–160). -/
def delta_fields : List String :=
  ["created_at", "updated_at", "first_published_at", "last_published_at"]

/-- `MeiliSearchModelIndex._has_date_fields` (`index.py` lines 364–374):
whether the model's declared field names intersect `delta_fields`. -/
def has_date_fields (modelFields : List String) : Bool :=
  modelFields.any fun f => delta_fields.contains f

/-- One temporal attribute's test inside `_check_deltas`
(`index.py` lines 397–404): the record is kept via this field iff the
attribute exists, is truthy, is comparable, and is strictly later than the
cutoff (`if val and val > since`); a `TypeError` is swallowed. -/
def fieldPasses (since : Int) : DeltaVal → Bool
  | .time t => decide (since < t)
  | _ => false

/-- The per-record body of the `_check_deltas` loop: the four temporal
attributes are tried in `delta_fields` order and the record is appended on
the first success (`break`), i.e. iff some attribute passes. -/
def recordKeeps (since : Int) (r : Record) : Bool :=
  fieldPasses since r.created_at || fieldPasses since r.updated_at ||
    fieldPasses since r.first_published_at ||
    fieldPasses since r.last_published_at

/-- Embedding of `MeiliSearchModelIndex._check_deltas` (`index.py`
lines 376–405): with a falsy `update_delta` everything is dropped; otherwise
a record survives iff the model declares a temporal field and the record
itself passes the per-field recency test. -/
def check_deltas (modelFields : List String) (updateDelta : Option Unit)
    (since : Int) (objects : List Record) : List Record :=
  match updateDelta with
  | none => []
  | some _ =>
    objects.filter fun o => has_date_fields modelFields && recordKeeps since o

/-! ## Documents and engine calls (`index.py` lines 281–362) -/

/-- The flat document sent to the engine: the extracted field dictionary
with the `id` key set (last, overriding) to the record's primary key
(`index.py` lines 281–295). -/
structure Doc where
  fields : List (String × String)
  id : Int
deriving DecidableEq

/-- The pure field extraction `get_document_fields(model, item)` evaluated
on the record's current state; the walk over the framework's field
descriptors is external, so the record carries its result. -/
def get_document_fields (item : Record) : List (String × String) :=
  item.docFields

/-- Embedding of `MeiliSearchModelIndex._create_document` (`index.py`
lines 281–295). -/
def create_document (item : Record) : Doc :=
  ⟨get_document_fields item, item.id⟩

/-- A remote Meilisearch call issued by the indexing/search layer. -/
inductive EngineCall where
  | resolveIndex
  | deleteAllDocuments
  | applySettings
  | updateDocuments (docs : List Doc)
  | addDocuments (docs : List Doc)
  | multiSearch
deriving DecidableEq

/-- The document payload of a write call (empty for non-write calls). -/
def docsOf : EngineCall → List Doc
  | .updateDocuments docs => docs
  | .addDocuments docs => docs
  | _ => []

/-- Whether a call writes documents to the engine. -/
def isWrite : EngineCall → Bool
  | .updateDocuments _ => true
  | .addDocuments _ => true
  | _ => false

/-- Embedding of `MeiliSearchModelIndex.add_item` (`index.py`
lines 305–327): under `delta` the single record is passed through
`_check_deltas`, but the record is only replaced when the filtered list is
non-empty (`if len(checked): item = checked[0]`); the document is then
written with `update_documents` under `soft` and `add_documents` under any
other strategy. -/
def add_item (strategy : String) (modelFields : List String)
    (updateDelta : Option Unit) (since : Int) (item : Record) : EngineCall :=
  let item' :=
    if strategy = "delta" then
      match check_deltas modelFields updateDelta since [item] with
      | [] => item
      | checked :: _ => checked
    else item
  let doc := create_document item'
  if strategy = "soft" then .updateDocuments [doc] else .addDocuments [doc]

/-! ## Batch chunking (`index.py` lines 329–362) -/

/-- Fuel-driven embedding of
`chunks = [items[x:x + 100] for x in range(0, len(items), 100)]`; any
`fuel ≥ items.length` produces the chunk list. -/
def chunksGo {α : Type} : Nat → List α → List (List α)
  | _, [] => []
  | 0, _ :: _ => []
  | fuel + 1, x :: xs => (x :: xs).take 100 :: chunksGo fuel ((x :: xs).drop 100)

/-- The 100-record chunking of the input list. -/
def chunks100 {α : Type} (l : List α) : List (List α) :=
  chunksGo l.length l

/-- Embedding of `MeiliSearchModelIndex.add_items` (`index.py`
lines 329–362): chunk the input into batches of 100, delta-filter each batch
under the `delta` strategy, build the documents, and issue one
`update_documents` (`soft`/`delta`) or `add_documents` (otherwise) call per
batch whose prepared document list is non-empty (`if prepared:`). -/
def add_items (strategy : String) (modelFields : List String)
    (updateDelta : Option Unit) (since : Int) (items : List Record) :
    List EngineCall :=
  (chunks100 items).filterMap fun chunk =>
    let chunk' :=
      if strategy = "delta" then
        check_deltas modelFields updateDelta since chunk
      else chunk
    let prepared := chunk'.map create_document
    if prepared.isEmpty then none
    else if strategy = "soft" ∨ strategy = "delta" then
      some (.updateDocuments prepared)
    else some (.addDocuments prepared)

/-! ## Rebuilder and skip list (`rebuilder.py` lines 18–47,
`index.py` lines 458–485) -/

/-- The kind of object `MeiliSearchRebuilder.start` returns: the real
per-model index, or the no-op `DummyModelIndex`. -/
inductive Sink where
  | dummy
  | real
deriving DecidableEq

/-- What `MeiliSearchRebuilder.start` produced: the sink handed back to the
caller, the remote calls made during `start` itself, and the notices written
to stdout. -/
structure StartResult where
  sink : Sink
  calls : List EngineCall
  notices : List String
deriving DecidableEq

/-- Embedding of `MeiliSearchRebuilder.start` (`rebuilder.py` lines 18–47):
the skip-list check runs first and returns the dummy sink with a
`"SKIPPING"` notice before any remote interaction; otherwise the index is
resolved (twice, per the source) — with an intervening
`delete_all_documents` under the `hard` path — and settings are applied. -/
def rebuilder_start (metaLabel : String) (skipModels : List String)
    (strategy : String) : StartResult :=
  if metaLabel ∈ skipModels then
    ⟨.dummy, [], ["SKIPPING: " ++ metaLabel ++ "\n"]⟩
  else if strategy = "soft" ∨ strategy = "delta" then
    ⟨.real, [.resolveIndex, .resolveIndex, .applySettings], []⟩
  else
    ⟨.real, [.resolveIndex, .deleteAllDocuments, .resolveIndex,
      .applySettings], []⟩

/-- `add_items` dispatched through the sink `start` returned:
`DummyModelIndex.add_items` (`index.py` lines 477–484) performs no remote
call at all. -/
def sink_add_items (s : Sink) (strategy : String) (modelFields : List String)
    (updateDelta : Option Unit) (since : Int) (items : List Record) :
    List EngineCall :=
  match s with
  | .dummy => []
  | .real => add_items strategy modelFields updateDelta since items

/-- One indexing run for one model: `start`, then every batch the framework
hands over is pushed through the returned sink; the run's full remote-call
trace is collected. -/
def indexing_run (metaLabel : String) (skipModels : List String)
    (strategy : String) (modelFields : List String)
    (updateDelta : Option Unit) (since : Int) (batches : List (List Record)) :
    StartResult × List EngineCall :=
  let st := rebuilder_start metaLabel skipModels strategy
  (st, st.calls ++
    (batches.map (sink_add_items st.sink strategy modelFields updateDelta
      since)).flatten)

/-! ## Backend search entry (`backend.py` lines 187–225) -/

/-- What `MeiliSearchBackend._search` returns: Wagtail's
`EmptySearchResults`, or a lazy `MeiliSearchResults` object for the query. -/
inductive SearchReturn where
  | emptyResults
  | meiliResults (query : String)
deriving DecidableEq

/-- Embedding of `MeiliSearchBackend._search` (`backend.py` lines 187–225):
an unregistered model, and then an empty query string, short-circuit to
`EmptySearchResults`. -/
def backend_search (isIndexed : Bool) (query : String) : SearchReturn :=
  if isIndexed = false then .emptyResults
  else if query = "" then .emptyResults
  else .meiliResults query

/-- The remote calls that evaluating the returned result object issues:
`EmptySearchResults` never talks to the engine, while evaluating a
`MeiliSearchResults` runs the multi-search. -/
def evaluateCalls : SearchReturn → List EngineCall
  | .emptyResults => []
  | .meiliResults _ => [.multiSearch]

/-! ## Memoised document-field extraction (`utils.py` lines 108–134)

`get_document_fields` is decorated `@lru_cache(maxsize=None)`, so it is
memoised process-wide on the `(model, item)` argument pair.  Django model
instances hash by primary key and compare equal iff they share the concrete
class and the primary key, so the effective cache key is
`(model, item.__class__, item.pk)`. -/

structure CacheKey where
  model : String
  cls : String
  pk : Int
deriving DecidableEq

/-- The cache key `lru_cache` derives from the `(model, item)` call. -/
def cacheKey (model : String) (item : Record) : CacheKey :=
  ⟨model, item.cls, item.id⟩

/-- One memoised call: on a hit the cached dictionary is returned unchanged;
on a miss the extraction runs on the record's current state and the result
is stored. -/
def get_document_fields_memo
    (cache : List (CacheKey × List (String × String))) (model : String)
    (item : Record) :
    List (String × String) × List (CacheKey × List (String × String)) :=
  match cache.find? (fun e => e.1 = cacheKey model item) with
  | some e => (e.2, cache)
  | none =>
    (get_document_fields item,
      (cacheKey model item, get_document_fields item) :: cache)

/-! ## Shared search parameters (`index.py` lines 425–445,
`backend.py` lines 100–112)

`MeiliSearchModelIndex.search` aliases the backend's shared
`search_params` dictionary (`params = self.backend.search_params`) and,
when `extras` is non-empty, calls `params.update(**extras)` — mutating the
backend's dictionary in place.  The embedding threads the backend state
explicitly: the result is the pair (parameters used for this search, the
backend's `search_params` after the call). -/

def index_search (searchParams : List (String × String))
    (extras : List (String × String)) :
    List (String × String) × List (String × String) :=
  if extras.isEmpty then (searchParams, searchParams)
  else
    let p := odUpdate searchParams extras
    (p, p)

/-! ## Chunking lemmas -/

theorem chunksGo_nil {α : Type} : ∀ fuel : Nat, chunksGo fuel ([] : List α) = []
  | 0 => rfl
  | _ + 1 => rfl

theorem chunksGo_congr {α : Type} :
    ∀ (f1 f2 : Nat) (l : List α), l.length ≤ f1 → l.length ≤ f2 →
      chunksGo f1 l = chunksGo f2 l
  | 0, f2, l, h1, _ => by
    have hl : l = [] := List.length_eq_zero.mp (Nat.le_zero.mp h1)
    subst hl
    rw [chunksGo_nil, chunksGo_nil]
  | f1 + 1, f2, l, h1, h2 => by
    cases l with
    | nil => rw [chunksGo_nil, chunksGo_nil]
    | cons x xs =>
      cases f2 with
      | zero => simp at h2
      | succ f2 =>
        have e1 : chunksGo (f1 + 1) (x :: xs) =
            (x :: xs).take 100 :: chunksGo f1 ((x :: xs).drop 100) := rfl
        have e2 : chunksGo (f2 + 1) (x :: xs) =
            (x :: xs).take 100 :: chunksGo f2 ((x :: xs).drop 100) := rfl
        rw [e1, e2, chunksGo_congr f1 f2 ((x :: xs).drop 100)
          (by simp only [List.length_drop, List.length_cons] at h1 ⊢; omega)
          (by simp only [List.length_drop, List.length_cons] at h2 ⊢; omega)]

theorem chunks100_cons {α : Type} (l : List α) (hl : l ≠ []) :
    chunks100 l = l.take 100 :: chunks100 (l.drop 100) :=
  by
  cases l with
  | nil => exact absurd rfl hl
  | cons x xs =>
    show chunksGo (xs.length + 1) (x :: xs) = _
    have e1 : chunksGo (xs.length + 1) (x :: xs) =
        (x :: xs).take 100 :: chunksGo xs.length ((x :: xs).drop 100) := rfl
    rw [e1, chunks100]
    rw [chunksGo_congr xs.length ((x :: xs).drop 100).length ((x :: xs).drop 100)
      (by simp only [List.length_drop, List.length_cons]; omega) (Nat.le_refl _)]

theorem chunks100_flatten {α : Type} :
    ∀ (fuel : Nat) (l : List α), l.length ≤ fuel →
      (chunksGo fuel l).flatten = l
  | 0, l, h => by
    have hl : l = [] := List.length_eq_zero.mp (Nat.le_zero.mp h)
    subst hl
    rfl
  | fuel + 1, l, h => by
    cases l with
    | nil => rfl
    | cons x xs =>
      have e1 : chunksGo (fuel + 1) (x :: xs) =
          (x :: xs).take 100 :: chunksGo fuel ((x :: xs).drop 100) := rfl
      rw [e1, List.flatten_cons,
        chunks100_flatten fuel ((x :: xs).drop 100)
          (by simp only [List.length_drop]; simp at h ⊢; omega),
        List.take_append_drop]

theorem chunks100_flatten_eq {α : Type} (l : List α) :
    (chunks100 l).flatten = l :=
  chunks100_flatten l.length l (Nat.le_refl _)

theorem chunks100_mem_ne_nil {α : Type} :
    ∀ (fuel : Nat) (l : List α), ∀ c ∈ chunksGo fuel l, c ≠ []
  | 0, l, c, hc => by
    cases l with
    | nil => simp [chunksGo_nil] at hc
    | cons x xs => simp [chunksGo] at hc
  | fuel + 1, l, c, hc => by
    cases l with
    | nil => simp [chunksGo_nil] at hc
    | cons x xs =>
      have e1 : chunksGo (fuel + 1) (x :: xs) =
          (x :: xs).take 100 :: chunksGo fuel ((x :: xs).drop 100) := rfl
      rw [e1, List.mem_cons] at hc
      rcases hc with hc | hc
      · subst hc
        simp [List.take_cons]
      · exact chunks100_mem_ne_nil fuel ((x :: xs).drop 100) c hc

theorem chunks100_lengths_250 {α : Type} (l : List α) (hl : l.length = 250) :
    (chunks100 l).map List.length = [100, 100, 50] :=
  by
  have h0 : l ≠ [] := by intro h; subst h; simp at hl
  have h1 : (l.drop 100).length = 150 := by simp [hl]
  have h1' : l.drop 100 ≠ [] := by
    intro h; rw [h] at h1; simp at h1
  have h2 : ((l.drop 100).drop 100).length = 50 := by simp [hl]
  have h2' : (l.drop 100).drop 100 ≠ [] := by
    intro h; rw [h] at h2; simp at h2
  have h3 : (((l.drop 100).drop 100).drop 100) = [] := by
    apply List.eq_nil_of_length_eq_zero
    simp [hl]
  have h4 : chunks100 ([] : List α) = [] := chunksGo_nil 0
  rw [chunks100_cons l h0, chunks100_cons (l.drop 100) h1',
    chunks100_cons ((l.drop 100).drop 100) h2', h3, h4]
  simp only [List.map_cons, List.length_take, hl, h1, h2, List.map_nil]
  decide

theorem filterMap_some_of_ne_nil {α β : Type} (f : List α → Option β)
    (g : List α → β) (hf : ∀ c, c ≠ [] → f c = some (g c)) :
    ∀ cs : List (List α), (∀ c ∈ cs, c ≠ []) → cs.filterMap f = cs.map g
  | [], _ => rfl
  | c :: rest, hne => by
    have hc : c ≠ [] := hne c (List.mem_cons_self c rest)
    rw [List.filterMap_cons_some (hf c hc), List.map_cons,
      filterMap_some_of_ne_nil f g hf rest
        fun d hd => hne d (List.mem_cons_of_mem c hd)]

/-- With any strategy other than `delta`, `add_items` writes every chunk
as-is: the filterMap degenerates to a map over the (all non-empty) chunks. -/
theorem add_items_eq_map (strategy : String) (modelFields : List String)
    (updateDelta : Option Unit) (since : Int) (items : List Record)
    (hs : strategy ≠ "delta") :
    add_items strategy modelFields updateDelta since items =
      (chunks100 items).map fun chunk =>
        if strategy = "soft" ∨ strategy = "delta" then
          EngineCall.updateDocuments (chunk.map create_document)
        else EngineCall.addDocuments (chunk.map create_document) :=
  by
  unfold add_items
  apply filterMap_some_of_ne_nil
  · intro c hc
    have hprep : (c.map create_document).isEmpty = false := by
      cases c with
      | nil => exact absurd rfl hc
      | cons a as => rfl
    simp only [if_neg hs, hprep, Bool.false_eq_true, if_false]
    by_cases hsoft : strategy = "soft" ∨ strategy = "delta"
    · simp [hsoft]
    · simp [hsoft]
  · exact chunks100_mem_ne_nil items.length items

/-! # Claim theorems -/

/-- C1 — counterexample. The claim states that a merged hit lacking the
engine's native `_rankingScore` is scored by the boost-weighted
match-position fallback.  On the code, `ranked_ids_from_search_results`
scores such a hit `0.0` (`hit.get("_rankingScore", 0.0)`): for the
multi-search response `c1Results`, whose only hit has no ranking score,
match-position data of serialized length 40 and a matched-field boost of 10,
the claim predicts score `400` but the code produces score `0`. -/
theorem c1_score_counterexample :
    ranked_ids_from_search_results c1Results = [(5, 0)] ∧
    c1Hit.rankingScore = none ∧
    legacyMatchScore c1Boosts c1Hit = 400 ∧
    (0 : ℚ) ≠ 400 := by
  refine ⟨by decide, rfl, ?_, by decide⟩
  simp [legacyMatchScore, c1Hit, c1Boosts, boostOr1, alookup]
  norm_num

/-- C1 — amended. For every merged hit set produced by the multi-index
search, the score assigned to a hit is the engine's native per-hit ranking
score when that field is present and `0.0` when it is absent (the
boost-weighted fallback of the legacy revision's `_do_search` is not applied
by the current implementation), and the merged hits are ordered descending
by this score. -/
theorem c1_score_amended (r : SearchResults) (hmulti : r.hits = none) :
    List.Perm (ranked_ids_from_search_results r) (multiItems r) ∧
    List.Sorted (descBy fun p : Int × ℚ => p.2)
      (ranked_ids_from_search_results r) ∧
    (∀ hs ∈ (r.results.getD []).filterMap IndexResult.hits,
      ∀ h ∈ hs, ∀ i : Int, h.id = some i →
        (i, h.rankingScore.getD 0) ∈ ranked_ids_from_search_results r) ∧
    (∀ p ∈ ranked_ids_from_search_results r,
      ∃ hs ∈ (r.results.getD []).filterMap IndexResult.hits, ∃ h ∈ hs,
        h.id = some p.1 ∧ (∀ s : ℚ, h.rankingScore = some s → p.2 = s) ∧
        (h.rankingScore = none → p.2 = 0)) := by
  have hr : ranked_ids_from_search_results r =
      sortDescBy (fun p => p.2) (multiItems r) := by
    unfold ranked_ids_from_search_results
    rw [hmulti]
  refine ⟨hr ▸ sortDescBy_perm _ _, hr ▸ sortDescBy_sorted _ _, ?_, ?_⟩
  · intro hs hhs h hh i hid
    rw [hr]
    have hmem : (i, h.rankingScore.getD 0) ∈ multiItems r := by
      unfold multiItems
      rw [List.mem_flatten]
      refine ⟨hitPairs hs, List.mem_map_of_mem hitPairs hhs, ?_⟩
      unfold hitPairs
      rw [List.mem_filterMap]
      exact ⟨h, hh, by rw [hid]; rfl⟩
    exact (sortDescBy_perm _ _).mem_iff.mpr hmem
  · intro p hp
    rw [hr] at hp
    have hp' : p ∈ multiItems r := (sortDescBy_perm _ _).mem_iff.mp hp
    unfold multiItems at hp'
    rw [List.mem_flatten] at hp'
    obtain ⟨l, hl, hpl⟩ := hp'
    rw [List.mem_map] at hl
    obtain ⟨hs, hhs, rfl⟩ := hl
    unfold hitPairs at hpl
    rw [List.mem_filterMap] at hpl
    obtain ⟨h, hh, hph⟩ := hpl
    cases hid : h.id with
    | none => rw [hid] at hph; simp at hph
    | some i =>
      rw [hid] at hph
      simp only [Option.map_some', Option.some.injEq] at hph
      subst hph
      refine ⟨hs, hhs, h, hh, hid, ?_, ?_⟩
      · intro s hscore
        simp [hscore]
      · intro hscore
        simp [hscore]

/-- C1 — witness for the amended theorem at the concrete multi-search
response `c1Results`. -/
theorem c1_score_amended_witness :
    c1Results.hits = none ∧
    List.Sorted (descBy fun p : Int × ℚ => p.2)
      (ranked_ids_from_search_results c1Results) :=
  ⟨rfl, (c1_score_amended c1Results rfl).2.1⟩

/-- C2 — counterexample. Two active indexes reporting facet
distributions `[("58", 100)]` and `[("58", 97), ("75", 2)]` for the same
filterable field merge — via `results.update(res)` — into
`[("58", 97), ("75", 2)]`: the second index's count OVERWRITES the first,
instead of the claimed per-value sum `[("58", 197), ("75", 2)]`. -/
theorem c2_facet_counterexample :
    facet c2Indexes "content_type_id_filter" = [("58", 97), ("75", 2)] ∧
    [(("58" : String), (97 : Nat)), ("75", 2)] ≠ [("58", 197), ("75", 2)] :=
  ⟨by decide, by decide⟩

/-- C2 — amended. The facet distributions returned by the active
per-model indexes are merged by dictionary update — for each facet value the
count reported by the LAST contributing index wins, counts are never
summed — and the merged mapping is sorted descending by count. -/
theorem c2_facet_amended (indexes : List FacetIndex) (ff : String) :
    List.Perm (facet indexes ff) (facetMerge indexes ff) ∧
    List.Sorted (descBy fun p : String × Nat => (p.2 : ℚ)) (facet indexes ff) ∧
    ∀ k, alookup (facetMerge indexes ff) k =
      lastVal (contribDists indexes ff).flatten k := by
  refine ⟨sortDescBy_perm _ _, sortDescBy_sorted _ _, ?_⟩
  intro k
  rw [facetMerge_eq_odUpdate, alookup_odUpdate]
  cases lastVal (contribDists indexes ff).flatten k with
  | none => rfl
  | some v => rfl

/-- C3. The descending-by-score ordering is computed over the entire
merged hit set before the `[start:stop]` window is applied: the ranked pair
list is globally sorted, and position `i` of the window is position
`start + i` of the global sorted ID list; for a 10-ID global list the
window `[2:5]` has length 3 (so it consists exactly of the IDs at sorted
positions 2, 3 and 4), regardless of how the hits are distributed over the
contributing indexes. -/
theorem c3_global_sort_before_window (irs : List IndexResult)
    (start stop i : Nat) :
    List.Sorted (descBy fun p : Int × ℚ => p.2)
      (ranked_ids_from_search_results ⟨none, some irs⟩) ∧
    (i < stop - start →
      (do_search_window irs start stop)[i]? =
        (globalSortedIds irs)[start + i]?) ∧
    ((globalSortedIds irs).length = 10 →
      (do_search_window irs 2 5).length = 3) := by
  refine ⟨?_, ?_, ?_⟩
  · show List.Sorted _
      (sortDescBy (fun p => p.2) (multiItems ⟨none, some irs⟩))
    exact sortDescBy_sorted _ _
  · intro hi
    unfold do_search_window pySlice
    rw [List.getElem?_take_of_lt hi, List.getElem?_drop]
  · intro hlen
    unfold do_search_window pySlice
    simp only [List.length_take, List.length_drop, hlen]
    omega

/-- A single-index multi-search response holding ten hits with distinct
ranking scores. -/
def c3Irs : List IndexResult :=
  [⟨some [⟨some 0, some 3, []⟩, ⟨some 1, some 9, []⟩, ⟨some 2, some 5, []⟩,
    ⟨some 3, some 1, []⟩, ⟨some 4, some 8, []⟩, ⟨some 5, some 2, []⟩,
    ⟨some 6, some 7, []⟩, ⟨some 7, some 4, []⟩, ⟨some 8, some 6, []⟩,
    ⟨some 9, some 0, []⟩]⟩]

/-- C3 — witness at the concrete ten-hit response `c3Irs`, window
`[2:5]`, position `0`. -/
theorem c3_global_sort_before_window_witness :
    (0 < 5 - 2) ∧ (globalSortedIds c3Irs).length = 10 ∧
    (do_search_window c3Irs 2 5)[0]? = (globalSortedIds c3Irs)[2 + 0]? ∧
    (do_search_window c3Irs 2 5).length = 3 :=
  ⟨by decide, by decide,
    (c3_global_sort_before_window c3Irs 2 5 0).2.1 (by decide),
    (c3_global_sort_before_window c3Irs 2 5 0).2.2 (by decide)⟩

theorem has_date_fields_iff (modelFields : List String) :
    has_date_fields modelFields = true ↔
      ∃ f ∈ modelFields, f ∈ delta_fields := by
  simp [has_date_fields, List.any_eq_true, List.contains]

theorem fieldPasses_iff (since : Int) (v : DeltaVal) :
    fieldPasses since v = true ↔ ∃ t : Int, v = DeltaVal.time t ∧ since < t :=
  by cases v <;> simp [fieldPasses]

theorem recordKeeps_iff (since : Int) (r : Record) :
    recordKeeps since r = true ↔
      ∃ v ∈ [r.created_at, r.updated_at, r.first_published_at,
        r.last_published_at], ∃ t : Int, v = DeltaVal.time t ∧ since < t := by
  simp only [recordKeeps, Bool.or_eq_true, fieldPasses_iff, List.mem_cons,
    List.mem_singleton, List.not_mem_nil, or_false]
  constructor
  · rintro (((h | h) | h) | h)
    · exact ⟨r.created_at, Or.inl rfl, h⟩
    · exact ⟨r.updated_at, Or.inr (Or.inl rfl), h⟩
    · exact ⟨r.first_published_at, Or.inr (Or.inr (Or.inl rfl)), h⟩
    · exact ⟨r.last_published_at, Or.inr (Or.inr (Or.inr rfl)), h⟩
  · rintro ⟨v, (rfl | rfl | rfl | rfl), h⟩
    · exact Or.inl (Or.inl (Or.inl h))
    · exact Or.inl (Or.inl (Or.inr h))
    · exact Or.inl (Or.inr h)
    · exact Or.inr h

/-- C4. With a configured delta window, a record passes `_check_deltas`
iff it is in the input batch, its model declares at least one of the four
temporal fields, and at least one of its temporal attributes is a populated,
comparable value strictly later than the cutoff `since = now + deltaWindow`
(so a falsy value, a missing attribute, or a `TypeError`-raising comparison
merely fails to retain the record via that field, without excluding it);
and a model declaring none of the temporal fields has all its records
excluded. -/
theorem c4_delta_filtering (modelFields : List String)
    (updateDelta : Option Unit) (since : Int) (objects : List Record)
    (r : Record) (hud : updateDelta = some ()) :
    (r ∈ check_deltas modelFields updateDelta since objects ↔
      r ∈ objects ∧ (∃ f ∈ modelFields, f ∈ delta_fields) ∧
        ∃ v ∈ [r.created_at, r.updated_at, r.first_published_at,
          r.last_published_at], ∃ t : Int, v = DeltaVal.time t ∧ since < t) ∧
    (has_date_fields modelFields = false →
      check_deltas modelFields updateDelta since objects = []) := by
  subst hud
  constructor
  · show r ∈ objects.filter _ ↔ _
    rw [List.mem_filter, Bool.and_eq_true, has_date_fields_iff,
      recordKeeps_iff]
  · intro hdf
    show objects.filter _ = _
    induction objects with
    | nil => rfl
    | cons o rest ih =>
      rw [List.filter_cons_of_neg (by simp [hdf]), ih]

/-- A record whose `created_at` comparison raises `TypeError` but whose
`updated_at` is strictly later than the cutoff `0`. -/
def c4Rec : Record :=
  ⟨"tests.Article", 1, [], .incomparable, .time 5, .nullOrFalsy, .missing⟩

/-- C4 — witness at the concrete record `c4Rec`: the incomparable
`created_at` does not exclude it, the populated later `updated_at` retains
it, and a model with no temporal fields drops everything. -/
theorem c4_delta_filtering_witness :
    ((some () : Option Unit) = some ()) ∧
    (c4Rec ∈ check_deltas ["updated_at"] (some ()) 0 [c4Rec] ↔
      c4Rec ∈ [c4Rec] ∧ (∃ f ∈ ["updated_at"], f ∈ delta_fields) ∧
        ∃ v ∈ [c4Rec.created_at, c4Rec.updated_at, c4Rec.first_published_at,
          c4Rec.last_published_at],
          ∃ t : Int, v = DeltaVal.time t ∧ 0 < t) ∧
    check_deltas ["title"] (some ()) 0 [c4Rec] = [] :=
  ⟨rfl, (c4_delta_filtering ["updated_at"] (some ()) 0 [c4Rec] c4Rec rfl).1,
    (c4_delta_filtering ["title"] (some ()) 0 [c4Rec] c4Rec rfl).2 (by decide)⟩

/-- C5. `add_item` always writes a document built from the ORIGINAL
record — the delta filter run on the single-item path is advisory, not a
gate — and the write is an upsert (`update_documents`) exactly under the
`soft` strategy and an insert (`add_documents`) under every other strategy,
including `delta`; in particular the write is still attempted when the
filtered singleton comes back empty. -/
theorem c5_add_item_filter_advisory (modelFields : List String)
    (updateDelta : Option Unit) (since : Int) (item : Record) :
    (∀ strategy : String,
      add_item strategy modelFields updateDelta since item =
        if strategy = "soft" then
          EngineCall.updateDocuments [create_document item]
        else EngineCall.addDocuments [create_document item]) ∧
    (check_deltas modelFields updateDelta since [item] = [] →
      add_item "delta" modelFields updateDelta since item =
        EngineCall.addDocuments [create_document item]) := by
  have hcases : check_deltas modelFields updateDelta since [item] = [] ∨
      check_deltas modelFields updateDelta since [item] = [item] := by
    cases updateDelta with
    | none => exact Or.inl rfl
    | some u =>
      simp only [check_deltas, List.filter_cons, List.filter_nil]
      by_cases hp : (has_date_fields modelFields && recordKeeps since item)
        = true
      · right
        rw [if_pos hp]
      · left
        rw [if_neg hp]
  have hall : ∀ strategy : String,
      add_item strategy modelFields updateDelta since item =
        if strategy = "soft" then
          EngineCall.updateDocuments [create_document item]
        else EngineCall.addDocuments [create_document item] := by
    intro strategy
    unfold add_item
    rcases hcases with h | h <;> rw [h] <;>
      by_cases hs : strategy = "delta" <;> simp [hs]
  refine ⟨hall, fun _ => ?_⟩
  rw [hall "delta"]
  simp

/-- C5 — witness: a record the delta filter rejects (all temporal
attributes missing) is nevertheless written, as an insert, under `delta`. -/
theorem c5_add_item_filter_advisory_witness :
    check_deltas ["updated_at"] (some ()) 0
      [(⟨"tests.Article", 7, [("title", "x")], .missing, .missing, .missing,
        .missing⟩ : Record)] = [] ∧
    add_item "delta" ["updated_at"] (some ()) 0
      (⟨"tests.Article", 7, [("title", "x")], .missing, .missing, .missing,
        .missing⟩ : Record) =
      EngineCall.addDocuments
        [create_document (⟨"tests.Article", 7, [("title", "x")], .missing,
          .missing, .missing, .missing⟩ : Record)] :=
  ⟨by decide,
    (c5_add_item_filter_advisory ["updated_at"] (some ()) 0 _).2 (by decide)⟩

/-- C6. For a model whose fully-qualified name is in the skip list, the
rebuilder's `start` returns the no-op `DummyModelIndex` sink, emits exactly
the `"SKIPPING"` notice, and makes no remote call; the whole indexing run —
under any strategy, with any batches pushed through the returned sink —
issues an empty remote-call trace, so in particular no document write ever
reaches the engine. -/
theorem c6_skip_list (metaLabel : String) (skipModels : List String)
    (strategy : String) (modelFields : List String)
    (updateDelta : Option Unit) (since : Int) (batches : List (List Record))
    (hskip : metaLabel ∈ skipModels) :
    (indexing_run metaLabel skipModels strategy modelFields updateDelta since
      batches).1.sink = Sink.dummy ∧
    (indexing_run metaLabel skipModels strategy modelFields updateDelta since
      batches).1.notices = ["SKIPPING: " ++ metaLabel ++ "\n"] ∧
    (indexing_run metaLabel skipModels strategy modelFields updateDelta since
      batches).2 = [] ∧
    ∀ c ∈ (indexing_run metaLabel skipModels strategy modelFields updateDelta
      since batches).2, isWrite c = false := by
  have hstart : rebuilder_start metaLabel skipModels strategy =
      ⟨Sink.dummy, [], ["SKIPPING: " ++ metaLabel ++ "\n"]⟩ := by
    unfold rebuilder_start
    rw [if_pos hskip]
  have htrace : (indexing_run metaLabel skipModels strategy modelFields
      updateDelta since batches).2 = [] := by
    unfold indexing_run
    rw [hstart]
    simp [sink_add_items]
  refine ⟨?_, ?_, htrace, ?_⟩
  · unfold indexing_run
    rw [hstart]
  · unfold indexing_run
    rw [hstart]
  · intro c hc
    rw [htrace] at hc
    simp at hc

/-- C6 — witness for a concretely skipped model under the `hard`
strategy with a non-empty batch. -/
theorem c6_skip_list_witness :
    "tests.Article" ∈ ["tests.Article", "tests.Author"] ∧
    (indexing_run "tests.Article" ["tests.Article", "tests.Author"] "hard"
      ["updated_at"] (some ()) 0 [[c4Rec]]).1.sink = Sink.dummy ∧
    (indexing_run "tests.Article" ["tests.Article", "tests.Author"] "hard"
      ["updated_at"] (some ()) 0 [[c4Rec]]).1.notices =
      ["SKIPPING: " ++ "tests.Article" ++ "\n"] ∧
    (indexing_run "tests.Article" ["tests.Article", "tests.Author"] "hard"
      ["updated_at"] (some ()) 0 [[c4Rec]]).2 = [] :=
  ⟨by decide,
    (c6_skip_list "tests.Article" _ "hard" ["updated_at"] (some ()) 0
      [[c4Rec]] (by decide)).1,
    (c6_skip_list "tests.Article" _ "hard" ["updated_at"] (some ()) 0
      [[c4Rec]] (by decide)).2.1,
    (c6_skip_list "tests.Article" _ "hard" ["updated_at"] (some ()) 0
      [[c4Rec]] (by decide)).2.2.1⟩

/-- C7. `add_items` never issues a write call with an empty payload;
under every non-`delta` strategy it issues exactly one write per chunk of
the 100-record partition — the per-call payload sizes are the chunk sizes,
and concatenating the payloads recovers every input record's document in
input order — and a 250-record bulk add therefore produces exactly 3 write
calls of sizes 100, 100 and 50. -/
theorem c7_batch_chunking (strategy : String) (modelFields : List String)
    (updateDelta : Option Unit) (since : Int) (items : List Record) :
    (∀ c ∈ add_items strategy modelFields updateDelta since items,
      docsOf c ≠ []) ∧
    (strategy ≠ "delta" →
      (add_items strategy modelFields updateDelta since items).map
        (fun c => (docsOf c).length) = (chunks100 items).map List.length) ∧
    (strategy ≠ "delta" →
      ((add_items strategy modelFields updateDelta since items).map
        docsOf).flatten = items.map create_document) ∧
    (strategy ≠ "delta" → items.length = 250 →
      (add_items strategy modelFields updateDelta since items).map
        (fun c => (docsOf c).length) = [100, 100, 50]) := by
  have hdocs : ∀ chunk : List Record,
      docsOf (if strategy = "soft" ∨ strategy = "delta" then
        EngineCall.updateDocuments (chunk.map create_document)
      else EngineCall.addDocuments (chunk.map create_document)) =
        chunk.map create_document := by
    intro chunk
    by_cases hsoft : strategy = "soft" ∨ strategy = "delta" <;>
      simp [hsoft, docsOf]
  have h2 : strategy ≠ "delta" →
      (add_items strategy modelFields updateDelta since items).map
        (fun c => (docsOf c).length) = (chunks100 items).map List.length := by
    intro hs
    rw [add_items_eq_map strategy modelFields updateDelta since items hs,
      List.map_map]
    apply List.map_congr_left
    intro chunk _
    show (docsOf _).length = _
    rw [hdocs chunk, List.length_map]
  refine ⟨?_, h2, ?_, ?_⟩
  · intro c hc
    unfold add_items at hc
    rw [List.mem_filterMap] at hc
    obtain ⟨chunk, _, hfc⟩ := hc
    dsimp only at hfc
    set chunk' :=
      if strategy = "delta" then
        check_deltas modelFields updateDelta since chunk
      else chunk with hchunk
    by_cases hemp : (chunk'.map create_document).isEmpty = true
    · rw [if_pos hemp] at hfc
      exact absurd hfc (by simp)
    · rw [if_neg hemp] at hfc
      by_cases hsoft : strategy = "soft" ∨ strategy = "delta"
      · rw [if_pos hsoft] at hfc
        injection hfc with hfc
        subst hfc
        simp only [docsOf]
        intro hnil
        exact hemp (by simp [hnil])
      · rw [if_neg hsoft] at hfc
        injection hfc with hfc
        subst hfc
        simp only [docsOf]
        intro hnil
        exact hemp (by simp [hnil])
  · intro hs
    rw [add_items_eq_map strategy modelFields updateDelta since items hs,
      List.map_map]
    have hmaps : (chunks100 items).map
        ((fun c => docsOf c) ∘ fun chunk =>
          if strategy = "soft" ∨ strategy = "delta" then
            EngineCall.updateDocuments (chunk.map create_document)
          else EngineCall.addDocuments (chunk.map create_document)) =
        (chunks100 items).map (List.map create_document) := by
      apply List.map_congr_left
      intro chunk _
      exact hdocs chunk
    rw [hmaps, ← List.map_flatten, chunks100_flatten_eq]
  · intro hs hlen
    rw [h2 hs, chunks100_lengths_250 items hlen]

/-- The 250 concrete records of the C7 witness. -/
def c7Items : List Record :=
  (List.range 250).map fun n =>
    ⟨"tests.Article", Int.ofNat n, [], .missing, .missing, .missing,
      .missing⟩

/-- C7 — witness: a bulk add of 250 records under the `hard` strategy
yields write calls of sizes 100, 100 and 50. -/
theorem c7_batch_chunking_witness :
    ("hard" : String) ≠ "delta" ∧ c7Items.length = 250 ∧
    (add_items "hard" [] none 0 c7Items).map
      (fun c => (docsOf c).length) = [100, 100, 50] :=
  ⟨by decide, by simp only [c7Items, List.length_map, List.length_range],
    (c7_batch_chunking "hard" [] none 0 c7Items).2.2.2 (by decide)
      (by simp only [c7Items, List.length_map, List.length_range])⟩

/-- C8. A search against an unregistered model, or with an empty query
string, returns `EmptySearchResults` — an ordinary value, not an error —
and neither the call nor the later evaluation of that result object issues
any remote engine call. -/
theorem c8_empty_query_short_circuit (isIndexed : Bool) (query : String)
    (h : isIndexed = false ∨ query = "") :
    backend_search isIndexed query = SearchReturn.emptyResults ∧
    evaluateCalls (backend_search isIndexed query) = [] := by
  have he : backend_search isIndexed query = SearchReturn.emptyResults := by
    unfold backend_search
    rcases h with h | h
    · rw [if_pos h]
    · by_cases hi : isIndexed = false
      · rw [if_pos hi]
      · rw [if_neg hi, if_pos h]
  exact ⟨he, by rw [he]; rfl⟩

/-- C8 — witness: an empty query on a registered model. -/
theorem c8_empty_query_short_circuit_witness :
    (true = false ∨ ("" : String) = "") ∧
    backend_search true "" = SearchReturn.emptyResults ∧
    evaluateCalls (backend_search true "") = [] :=
  ⟨Or.inr rfl, c8_empty_query_short_circuit true "" (Or.inr rfl)⟩

/-- C9. `get_document_fields` is memoised process-wide on the
`(model, record)` pair, and Django instances compare equal by concrete
class plus primary key: once a document's fields have been extracted for a
record, a later extraction for ANY record with the same class and primary
key — through the same process-wide cache — returns the first call's
cached dictionary, even if the record's field values changed in between. -/
theorem c9_memo_returns_stale_fields
    (cache : List (CacheKey × List (String × String))) (model : String)
    (r1 r2 : Record)
    (hmiss : cache.find? (fun e => e.1 = cacheKey model r1) = none)
    (hcls : r2.cls = r1.cls) (hid : r2.id = r1.id) :
    (get_document_fields_memo
      ((get_document_fields_memo cache model r1).2) model r2).1 =
      get_document_fields r1 := by
  have hkey : cacheKey model r2 = cacheKey model r1 := by
    unfold cacheKey
    rw [hcls, hid]
  have h1 : get_document_fields_memo cache model r1 =
      (get_document_fields r1,
        (cacheKey model r1, get_document_fields r1) :: cache) := by
    unfold get_document_fields_memo
    rw [hmiss]
  rw [h1]
  unfold get_document_fields_memo
  rw [List.find?_cons_of_pos _ (by simp [hkey])]

/-- First call's record: primary key 3 with the original field values. -/
def c9r1 : Record :=
  ⟨"tests.Article", 3, [("title", "old")], .missing, .missing, .missing,
    .missing⟩

/-- Same class and primary key as `c9r1`, but with changed field values. -/
def c9r2 : Record :=
  ⟨"tests.Article", 3, [("title", "new")], .missing, .missing, .missing,
    .missing⟩

/-- C9 — witness: after extracting for `c9r1`, extracting for `c9r2`
(same class and pk, different current field values) returns `c9r1`'s stale
dictionary. -/
theorem c9_memo_returns_stale_fields_witness :
    ([] : List (CacheKey × List (String × String))).find?
      (fun e => e.1 = cacheKey "tests.Article" c9r1) = none ∧
    c9r2.cls = c9r1.cls ∧ c9r2.id = c9r1.id ∧
    get_document_fields c9r2 ≠ get_document_fields c9r1 ∧
    (get_document_fields_memo
      ((get_document_fields_memo [] "tests.Article" c9r1).2) "tests.Article"
      c9r2).1 = get_document_fields c9r1 :=
  ⟨rfl, rfl, rfl, by decide,
    c9_memo_returns_stale_fields [] "tests.Article" c9r1 c9r2 rfl rfl rfl⟩

/-- C10. A per-model index search with non-empty `extras` (as the facet
path issues) updates the backend's shared `search_params` dictionary in
place — the parameters used for the search ARE the mutated shared
dictionary — so a subsequent search through the same backend with no extras
still uses the updated parameters, each extra key keeping its (last
assigned) value. -/
theorem c10_extras_mutate_shared_params
    (sp extras : List (String × String)) (hne : extras ≠ []) :
    (index_search sp extras).1 = odUpdate sp extras ∧
    (index_search sp extras).2 = odUpdate sp extras ∧
    (index_search ((index_search sp extras).2) []).1 = odUpdate sp extras ∧
    ∀ k v, lastVal extras k = some v →
      alookup ((index_search sp extras).2) k = some v := by
  have hemp : extras.isEmpty = false := by
    cases extras with
    | nil => exact absurd rfl hne
    | cons a as => rfl
  have h1 : index_search sp extras = (odUpdate sp extras, odUpdate sp extras)
    := by
    unfold index_search
    simp only [hemp, Bool.false_eq_true, if_false]
  refine ⟨by rw [h1], by rw [h1], by rw [h1]; rfl, ?_⟩
  intro k v hv
  rw [h1]
  show alookup (odUpdate sp extras) k = some v
  rw [alookup_odUpdate, hv]

/-- The backend's shared default search parameters
(`backend.py` lines 100–112), in string form. -/
def c10Params : List (String × String) :=
  [("limit", "999999"), ("attributesToRetrieve", "id"),
    ("showMatchesPosition", "True"), ("showRankingScore", "True")]

/-- C10 — witness: the facet path's `facets` extra persists
into the next no-extras search through the same backend. -/
theorem c10_extras_mutate_shared_params_witness :
    ([("facets", "content_type_id_filter")] : List (String × String)) ≠ [] ∧
    lastVal [("facets", "content_type_id_filter")] "facets" =
      some "content_type_id_filter" ∧
    (index_search ((index_search c10Params
      [("facets", "content_type_id_filter")]).2) []).1 =
      odUpdate c10Params [("facets", "content_type_id_filter")] ∧
    alookup ((index_search c10Params
      [("facets", "content_type_id_filter")]).2) "facets" =
      some "content_type_id_filter" :=
  ⟨by decide, by decide,
    (c10_extras_mutate_shared_params c10Params
      [("facets", "content_type_id_filter")] (by decide)).2.2.1,
    (c10_extras_mutate_shared_params c10Params
      [("facets", "content_type_id_filter")] (by decide)).2.2.2 "facets"
      "content_type_id_filter" (by decide)⟩

end WagtailMeili
